import Mathlib

/-!
Verification of the hwp-to-markdown conversion core.

This file gives a shallow embedding of the repository's core functions
(`hwpx_parser.py` and `converter.py`) and settles the specification claims
against it.  All strings are modelled as `List Char` (`Str`); XML element
trees (Python `xml.etree.ElementTree`) are modelled by `XNode`; the
BeautifulSoup/markdownify HTML documents by `HNode`.  Filesystem and
subprocess effects are modelled by explicit oracles (success/failure
functions) and returned resource states.
-/

/-- Strings of the Python program, modelled as lists of characters. -/
abbrev Str := List Char

/-- The newline character. -/
def nlc : Char := ('\n')

/-- Python `str.strip()` whitespace (ASCII fragment actually exercised by the program). -/
def isWsChar (c : Char) : Bool :=
  (c == (' ')) || (c == ('\t')) || (c == ('\n')) || (c == ('\r')) ||
    (c == ('\x0B')) || (c == ('\x0C'))

/-- Whether `p` is a prefix of `s` (Python `str.startswith`). -/
def startsWith : Str → Str → Bool
  | [], _ => true
  | _ :: _, [] => false
  | p :: ps, c :: cs => (p == c) && startsWith ps cs

/-- Whether `p` occurs as a contiguous substring of `s` (Python `in` on strings). -/
def containsSub (p : Str) : Str → Bool
  | [] => startsWith p []
  | c :: cs => startsWith p (c :: cs) || containsSub p cs

/-- Propositional form of substring occurrence. -/
def SubOf (p s : Str) : Prop := ∃ u v, s = u ++ p ++ v

theorem startsWith_iff (p s : Str) : startsWith p s = true ↔ ∃ r, s = p ++ r := by
  induction p generalizing s with
  | nil => simp [startsWith]
  | cons a ps ih =>
    cases s with
    | nil => simp [startsWith]
    | cons c cs =>
      simp only [startsWith, Bool.and_eq_true, beq_iff_eq, ih]
      constructor
      · rintro ⟨rfl, r, rfl⟩; exact ⟨r, rfl⟩
      · rintro ⟨r, h⟩
        cases h
        exact ⟨rfl, r, rfl⟩

theorem containsSub_iff (p s : Str) : containsSub p s = true ↔ SubOf p s := by
  induction s with
  | nil =>
    simp only [containsSub, startsWith_iff, SubOf]
    constructor
    · rintro ⟨r, h⟩
      exact ⟨[], r, by simpa using h⟩
    · rintro ⟨u, v, h⟩
      refine ⟨v, ?_⟩
      rcases List.append_eq_nil.mp h.symm with ⟨h1, h2⟩
      rcases List.append_eq_nil.mp h1 with ⟨rfl, rfl⟩
      simpa using h
  | cons c cs ih =>
    simp only [containsSub, Bool.or_eq_true, startsWith_iff, ih, SubOf]
    constructor
    · rintro (⟨r, h⟩ | ⟨u, v, h⟩)
      · exact ⟨[], r, by simpa using h⟩
      · exact ⟨c :: u, v, by simp [h]⟩
    · rintro ⟨u, v, h⟩
      cases u with
      | nil => exact Or.inl ⟨v, by simpa using h⟩
      | cons x us =>
        right
        refine ⟨us, v, ?_⟩
        simpa using (List.cons_eq_cons.mp h).2

theorem subOf_of_containsSub {p s : Str} (h : containsSub p s = true) : SubOf p s :=
  (containsSub_iff p s).mp h

theorem containsSub_eq_false_iff (p s : Str) : containsSub p s = false ↔ ¬ SubOf p s := by
  rw [← containsSub_iff]
  cases h : containsSub p s <;> simp [h]

/-- Splitting a substring occurrence across an append: the pattern lies in the
left part, in the right part, or straddles the boundary (with a nonempty suffix
of the pattern prefixing the right part and a nonempty prefix of the pattern
suffixing the left part). -/
theorem subOf_append_split {p x y : Str} (h : SubOf p (x ++ y)) :
    SubOf p x ∨ SubOf p y ∨
      ∃ a b, p = a ++ b ∧ a ≠ [] ∧ b ≠ [] ∧ (∃ u, x = u ++ a) ∧ ∃ v, y = b ++ v := by
  rcases h with ⟨u, v, huv⟩
  have h1 : x ++ y = u ++ (p ++ v) := by simpa [List.append_assoc] using huv
  rcases List.append_eq_append_iff.mp h1 with ⟨a, ha1, ha2⟩ | ⟨c, hc1, hc2⟩
  · -- u = x ++ a, so the occurrence is inside y
    right; left
    exact ⟨a, v, by simpa [List.append_assoc] using ha2⟩
  · -- x = u ++ c with p ++ v = c ++ y
    rcases List.append_eq_append_iff.mp hc2.symm with ⟨b, hb1, hb2⟩ | ⟨d, hd1, hd2⟩
    · -- p = c ++ b, y = b ++ v
      cases c with
      | nil =>
        right; left
        have : p = b := by simpa using hb1
        exact ⟨[], v, by simp [hb2, this]⟩
      | cons c0 crest =>
        cases b with
        | nil =>
          left
          refine ⟨u, [], ?_⟩
          have hp : p = c0 :: crest := by simpa using hb1
          simp [hc1, hp]
        | cons b0 brest =>
          right; right
          exact ⟨c0 :: crest, b0 :: brest, hb1, by simp, by simp,
            ⟨u, hc1⟩, ⟨v, hb2⟩⟩
    · -- c = p ++ d : occurrence inside x
      left
      exact ⟨u, d, by simp [hc1, hd1]⟩

theorem subOf_mono {p x u v : Str} (h : SubOf p x) : SubOf p (u ++ x ++ v) := by
  rcases h with ⟨a, b, rfl⟩
  exact ⟨u ++ a, b ++ v, by simp⟩

theorem mem_of_subOf_singleton {c : Char} {s : Str} (h : SubOf [c] s) : c ∈ s := by
  rcases h with ⟨u, v, rfl⟩
  simp

/-- Characters of the pattern belong to the string it occurs in. -/
theorem subOf_subset {p s : Str} (h : SubOf p s) : ∀ c ∈ p, c ∈ s := by
  rcases h with ⟨u, v, rfl⟩
  intro c hc
  simp [hc]

/-- Python `str.replace`: replace every non-overlapping occurrence of `pat`
by `rep`, scanning left to right and not rescanning replacements.  (The
program never calls it with an empty pattern; for totality an empty pattern
leaves the string unchanged.) -/
def replaceAll (pat rep : Str) : Str → Str
  | [] => []
  | c :: cs =>
    if h : pat ≠ [] ∧ startsWith pat (c :: cs) then
      rep ++ replaceAll pat rep (List.drop pat.length (c :: cs))
    else
      c :: replaceAll pat rep cs
termination_by s => s.length
decreasing_by
  · rcases h with ⟨hne, _⟩
    have : 1 ≤ pat.length := by
      cases pat with
      | nil => exact absurd rfl hne
      | cons a as => simp
    simp only [List.length_drop, List.length_cons]
    omega
  · simp

theorem replaceAll_nil (pat rep : Str) : replaceAll pat rep [] = [] := by
  simp [replaceAll]

theorem replaceAll_cons_no_match (pat rep : Str) (c : Char) (cs : Str)
    (h : startsWith pat (c :: cs) = false) :
    replaceAll pat rep (c :: cs) = c :: replaceAll pat rep cs := by
  rw [replaceAll]
  simp [h]

theorem replaceAll_match (pat rep rest : Str) (hne : pat ≠ []) :
    replaceAll pat rep (pat ++ rest) = rep ++ replaceAll pat rep rest := by
  have hsw : startsWith pat (pat ++ rest) = true := by
    rw [startsWith_iff]; exact ⟨rest, rfl⟩
  obtain ⟨c, cs, hp⟩ : ∃ c cs, pat ++ rest = c :: cs := by
    cases hx : pat ++ rest with
    | nil =>
      rcases List.append_eq_nil.mp hx with ⟨h1, _⟩
      exact absurd h1 hne
    | cons c cs => exact ⟨c, cs, rfl⟩
  have hdrop : List.drop pat.length (c :: cs) = rest := by
    rw [← hp]; exact List.drop_left pat rest
  rw [hp, replaceAll, dif_pos ⟨hne, hp ▸ hsw⟩, hdrop]

theorem replaceAll_no_occurrence (pat rep : Str) (s : Str)
    (h : containsSub pat s = false) : replaceAll pat rep s = s := by
  induction s with
  | nil => simp [replaceAll]
  | cons c cs ih =>
    simp only [containsSub, Bool.or_eq_false_iff] at h
    rw [replaceAll_cons_no_match pat rep c cs h.1, ih h.2]

/-- Python `"sep".join`, over already-rendered pieces. -/
def joinSep (sep : Str) : List Str → Str
  | [] => []
  | [x] => x
  | x :: y :: rest => x ++ sep ++ joinSep sep (y :: rest)

/-! ### The final whitespace-normalization step of `html_to_markdown`
`markdown = re.sub(r"\n{3,}", "\n\n", markdown); markdown = markdown.strip()` -/

/-- Length of the leading run of newline characters. -/
def countNl : Str → Nat
  | [] => 0
  | c :: cs => if c = nlc then countNl cs + 1 else 0

/-- `re.sub(r"\n{3,}", "\n\n", s)`: scanning left to right, every maximal run
of three or more consecutive newlines is replaced by exactly two. -/
def collapse : Str → Str
  | [] => []
  | c :: cs =>
    if c = nlc ∧ 2 ≤ countNl cs then
      nlc :: nlc :: collapse (List.dropWhile (fun x => x == nlc) cs)
    else
      c :: collapse cs
termination_by s => s.length
decreasing_by
  · have hle : (List.dropWhile (fun x => x == nlc) cs).length ≤ cs.length :=
      (List.dropWhile_suffix (fun x => x == nlc)).length_le
    simp only [List.length_cons]
    omega
  · simp

/-- Python `str.strip()`: remove trailing whitespace, then leading whitespace
(the order is irrelevant for the real `strip`; this form fixes one). -/
def strip (s : Str) : Str :=
  List.dropWhile isWsChar (List.reverse (List.dropWhile isWsChar (List.reverse s)))

/-- The final whitespace-normalization step at the end of `html_to_markdown`. -/
def normalizeWs (s : Str) : Str := strip (collapse s)

/-- A run of three consecutive newlines. -/
def threeNl : Str := [nlc, nlc, nlc]

theorem countNl_cons_nl (l : Str) : countNl (nlc :: l) = countNl l + 1 := by
  simp [countNl]

theorem countNl_cons_of_ne {c : Char} (l : Str) (h : ¬ c = nlc) :
    countNl (c :: l) = 0 := by
  simp [countNl, h]

theorem countNl_dropNl (l : Str) :
    countNl (List.dropWhile (fun x => x == nlc) l) = 0 := by
  induction l with
  | nil => simp [countNl]
  | cons a as ih =>
    by_cases ha : a = nlc
    · simp [List.dropWhile_cons, ha, ih]
    · simp [List.dropWhile_cons, ha, countNl]

theorem countNl_collapse (s : Str) : countNl (collapse s) = min (countNl s) 2 := by
  induction s using collapse.induct with
  | case1 => simp [collapse, countNl]
  | case2 c cs hg ih =>
    rw [collapse, if_pos hg]
    obtain ⟨rfl, h2⟩ := hg
    simp only [countNl_cons_nl]
    rw [ih, countNl_dropNl]
    omega
  | case3 c cs hg ih =>
    rw [collapse, if_neg hg]
    by_cases hc : c = nlc
    · subst hc
      have h2 : ¬ 2 ≤ countNl cs := fun h => hg ⟨rfl, h⟩
      simp only [countNl_cons_nl]
      rw [ih]
      omega
    · rw [countNl_cons_of_ne _ hc, countNl_cons_of_ne _ hc]
      simp

theorem three_le_countNl_iff (s : Str) :
    3 ≤ countNl s ↔ ∃ r, s = nlc :: nlc :: nlc :: r := by
  match s with
  | [] =>
    simp [countNl]
  | [a] =>
    constructor
    · intro h
      simp only [countNl] at h
      split at h <;> omega
    · rintro ⟨r, h⟩
      simp at h
  | [a, b] =>
    constructor
    · intro h
      exfalso
      simp only [countNl] at h
      split at h
      · split at h <;> omega
      · omega
    · rintro ⟨r, h⟩
      simp at h
  | a :: b :: c :: r =>
    constructor
    · intro h
      simp only [countNl] at h
      by_cases ha : a = nlc
      · by_cases hb : b = nlc
        · by_cases hc : c = nlc
          · exact ⟨r, by rw [ha, hb, hc]⟩
          · rw [if_pos ha, if_pos hb, if_neg hc] at h; omega
        · rw [if_pos ha, if_neg hb] at h; omega
      · rw [if_neg ha] at h; omega
    · rintro ⟨r2, h⟩
      obtain ⟨rfl, rfl, rfl, rfl⟩ : a = nlc ∧ b = nlc ∧ c = nlc ∧ r = r2 := by
        simpa using h
      simp [countNl]

theorem startsWith_threeNl_iff (s : Str) :
    startsWith threeNl s = true ↔ 3 ≤ countNl s := by
  rw [startsWith_iff, three_le_countNl_iff]
  constructor
  · rintro ⟨r, rfl⟩; exact ⟨r, by simp [threeNl]⟩
  · rintro ⟨r, rfl⟩; exact ⟨r, by simp [threeNl]⟩

theorem hasTriple_cons (c : Char) (cs : Str) :
    containsSub threeNl (c :: cs) =
      (startsWith threeNl (c :: cs) || containsSub threeNl cs) := rfl

theorem noTriple_collapse (s : Str) : containsSub threeNl (collapse s) = false := by
  induction s using collapse.induct with
  | case1 => simp [collapse, containsSub, threeNl, startsWith]
  | case2 c cs hg ih =>
    rw [collapse, if_pos hg]
    have h0 : countNl (collapse (List.dropWhile (fun x => x == nlc) cs)) = 0 := by
      rw [countNl_collapse, countNl_dropNl]
      simp
    rw [hasTriple_cons, hasTriple_cons]
    have hsw1 : startsWith threeNl
        (nlc :: nlc :: collapse (List.dropWhile (fun x => x == nlc) cs)) = false := by
      rw [Bool.eq_false_iff]
      intro hsw
      have h3 := (startsWith_threeNl_iff _).mp hsw
      rw [countNl_cons_nl, countNl_cons_nl, h0] at h3
      omega
    have hsw2 : startsWith threeNl
        (nlc :: collapse (List.dropWhile (fun x => x == nlc) cs)) = false := by
      rw [Bool.eq_false_iff]
      intro hsw
      have h3 := (startsWith_threeNl_iff _).mp hsw
      rw [countNl_cons_nl, h0] at h3
      omega
    rw [hsw1, hsw2, ih]
    rfl
  | case3 c cs hg ih =>
    rw [collapse, if_neg hg, hasTriple_cons]
    have hsw : startsWith threeNl (c :: collapse cs) = false := by
      rw [Bool.eq_false_iff]
      intro hsw
      have h3 := (startsWith_threeNl_iff _).mp hsw
      by_cases hc : c = nlc
      · subst hc
        have h2 : ¬ 2 ≤ countNl cs := fun h => hg ⟨rfl, h⟩
        rw [countNl_cons_nl, countNl_collapse] at h3
        omega
      · rw [countNl_cons_of_ne _ hc] at h3
        omega
    rw [hsw, ih]
    rfl

theorem collapse_of_noTriple {s : Str} (h : containsSub threeNl s = false) :
    collapse s = s := by
  induction s with
  | nil => simp [collapse]
  | cons c cs ih =>
    rw [hasTriple_cons, Bool.or_eq_false_iff] at h
    have hguard : ¬ (c = nlc ∧ 2 ≤ countNl cs) := by
      rintro ⟨rfl, h2⟩
      have hsw : startsWith threeNl (nlc :: cs) = true := by
        rw [startsWith_threeNl_iff, countNl_cons_nl]
        omega
      rw [hsw] at h
      exact absurd h.1 (by simp)
    rw [collapse, if_neg hguard, ih h.2]

theorem head_dropWhile_not (p : Char → Bool) (l : Str) {c : Char}
    (h : (List.dropWhile p l).head? = some c) : p c = false := by
  induction l with
  | nil => simp at h
  | cons a as ih =>
    by_cases ha : p a
    · rw [List.dropWhile_cons, if_pos ha] at h
      exact ih h
    · rw [List.dropWhile_cons, if_neg ha] at h
      simp only [List.head?_cons, Option.some.injEq] at h
      subst h
      exact Bool.eq_false_iff.mpr ha

theorem dropWhile_head_false (p : Char → Bool) (l : Str) {c : Char}
    (hh : l.head? = some c) (hc : p c = false) : List.dropWhile p l = l := by
  cases l with
  | nil => rfl
  | cons a as =>
    simp only [List.head?_cons, Option.some.injEq] at hh
    subst hh
    rw [List.dropWhile_cons, if_neg (by simp [hc])]

theorem strip_head_not_ws (s : Str) {c : Char}
    (h : (strip s).head? = some c) : isWsChar c = false :=
  head_dropWhile_not isWsChar _ h

theorem strip_getLast_not_ws (s : Str) {c : Char}
    (h : (strip s).getLast? = some c) : isWsChar c = false := by
  obtain ⟨u, hu⟩ := List.dropWhile_suffix
      (l := List.reverse (List.dropWhile isWsChar (List.reverse s))) isWsChar
  unfold strip at h
  have hMlast :
      (List.reverse (List.dropWhile isWsChar (List.reverse s))).getLast? = some c := by
    cases hD : List.dropWhile isWsChar
        (List.reverse (List.dropWhile isWsChar (List.reverse s))) with
    | nil => rw [hD] at h; simp at h
    | cons d ds =>
      rw [hD] at h hu
      rw [← hu, List.getLast?_append, h]
      rfl
  rw [List.getLast?_reverse] at hMlast
  exact head_dropWhile_not isWsChar _ hMlast

theorem strip_eq_self {t : Str}
    (hh : ∀ c, t.head? = some c → isWsChar c = false)
    (hl : ∀ c, t.getLast? = some c → isWsChar c = false) : strip t = t := by
  cases hx : t.getLast? with
  | none =>
    cases t with
    | nil => rfl
    | cons a as => simp at hx
  | some d =>
    have hdf : isWsChar d = false := hl d hx
    have h1 : List.dropWhile isWsChar (List.reverse t) = List.reverse t :=
      dropWhile_head_false isWsChar (List.reverse t)
        (by rw [List.head?_reverse]; exact hx) hdf
    unfold strip
    rw [h1, List.reverse_reverse]
    cases hy : t.head? with
    | none =>
      cases t with
      | nil => rfl
      | cons a as => simp at hy
    | some a => exact dropWhile_head_false isWsChar _ hy (hh a hy)

theorem strip_idem (s : Str) : strip (strip s) = strip s :=
  strip_eq_self (fun _ h => strip_head_not_ws s h) (fun _ h => strip_getLast_not_ws s h)

theorem strip_subOf (s : Str) : ∃ u v, s = u ++ strip s ++ v := by
  obtain ⟨u1, hu1⟩ := List.dropWhile_suffix (l := List.reverse s) isWsChar
  obtain ⟨u2, hu2⟩ := List.dropWhile_suffix
      (l := List.reverse (List.dropWhile isWsChar (List.reverse s))) isWsChar
  have hs : s = List.reverse (List.dropWhile isWsChar (List.reverse s)) ++
      List.reverse u1 := by
    simpa [List.reverse_append] using (congrArg List.reverse hu1).symm
  refine ⟨u2, List.reverse u1, ?_⟩
  show s = u2 ++ strip s ++ List.reverse u1
  unfold strip
  rw [hu2]
  exact hs

theorem noTriple_strip {s : Str} (h : containsSub threeNl s = false) :
    containsSub threeNl (strip s) = false := by
  rw [containsSub_eq_false_iff] at h ⊢
  intro hsub
  rcases strip_subOf s with ⟨u, v, hs⟩
  exact h (hs ▸ subOf_mono hsub)

/-- C9: the final whitespace-normalization step (collapse every run of three or
more consecutive newlines to exactly two, then trim leading and trailing
whitespace) is idempotent, its output contains no run of three or more
consecutive newlines, and its output has no leading or trailing whitespace. -/
theorem c9_normalize_idempotent (s : Str) :
    normalizeWs (normalizeWs s) = normalizeWs s ∧
    containsSub threeNl (normalizeWs s) = false ∧
    (normalizeWs s).head?.all (fun c => !isWsChar c) = true ∧
    (normalizeWs s).getLast?.all (fun c => !isWsChar c) = true := by
  have hnt : containsSub threeNl (normalizeWs s) = false :=
    noTriple_strip (noTriple_collapse s)
  refine ⟨?_, hnt, ?_, ?_⟩
  · show strip (collapse (normalizeWs s)) = normalizeWs s
    rw [collapse_of_noTriple hnt]
    exact strip_idem (collapse s)
  · cases hh : (normalizeWs s).head? with
    | none => simp
    | some c =>
      have := strip_head_not_ws (collapse s) hh
      simp [Option.all, this]
  · cases hh : (normalizeWs s).getLast? with
    | none => simp
    | some c =>
      have := strip_getLast_not_ws (collapse s) hh
      simp [Option.all, this]

/-! ### The `ElementTree` XML model and `hwpx_parser.py`

`XNode` models an `xml.etree.ElementTree` element: tag, attributes, the text
appearing directly inside the element before its first child (`Element.text`,
with the empty string standing for Python `None`), and child elements.  Tag
values stand for the fully-qualified (namespaced) tag names of the source;
the fixed namespace prefix is omitted. -/
inductive XNode where
  | mk (tag : Str) (attrs : List (Str × Str)) (text : Str) (children : List XNode)

def XNode.tag : XNode → Str
  | .mk t _ _ _ => t

def XNode.attrs : XNode → List (Str × Str)
  | .mk _ a _ _ => a

def XNode.text : XNode → Str
  | .mk _ _ x _ => x

def XNode.children : XNode → List XNode
  | .mk _ _ _ c => c

mutual

/-- Document-order (pre-order) traversal of an element and its descendants,
as produced by `Element.iter()`. -/
def preorder : XNode → List XNode
  | .mk t a x cs => .mk t a x cs :: preorderList cs

def preorderList : List XNode → List XNode
  | [] => []
  | n :: ns => preorder n ++ preorderList ns

end

/-- `Element.iter(tag)`: the element itself and all descendants with the given
tag, in document order. -/
def iterTag (t : Str) (n : XNode) : List XNode :=
  (preorder n).filter (fun m => m.tag = t)

/-- `Element.find(tag)` with a plain tag: first direct child with the tag. -/
def findChild (t : Str) (n : XNode) : Option XNode :=
  n.children.find? (fun m => m.tag = t)

/-- `Element.find(".//tag")`: first proper descendant with the tag, in
document order. -/
def findDesc (t : Str) (n : XNode) : Option XNode :=
  (preorderList n.children).find? (fun m => m.tag = t)

/-- `Element.get(key, default)`: attribute lookup with a default. -/
def attrGet (n : XNode) (key dflt : Str) : Str :=
  match n.attrs.find? (fun kv => kv.1 = key) with
  | some kv => kv.2
  | none => dflt

/-- `_extract_text_from_element`: collect the text of every descendant
`hp:t` element (skipping falsy/empty texts), then one newline per descendant
`hp:lineBreak` element, and join. -/
def extractText (e : XNode) : Str :=
  (((iterTag ("t".data) e).filterMap
      (fun n => if n.text = [] then none else some n.text)) ++
    ((iterTag ("lineBreak".data) e).map (fun _ => [nlc]))).flatten

/-- The table-cell span attribute emitted for key `key` (source lines 82-89:
default `"1"` when the `cellSpan` child or the attribute is absent). -/
def spanVal (tc : XNode) (key : Str) : Str :=
  match findChild ("cellSpan".data) tc with
  | none => ("1".data)
  | some cs => attrGet cs key ("1".data)

/-- The `<td ...>` fragment emitted for one cell by `_parse_table`. -/
def cellHtml (tc : XNode) : Str :=
  ("<td colspan='".data) ++ spanVal tc ("colSpan".data) ++
    ("' rowspan='".data) ++ spanVal tc ("rowSpan".data) ++
    ("'>".data) ++ extractText tc ++ ("</td>".data)

/-- `_parse_table`: every descendant `tr`, and inside it every descendant
`tc`, rendered in document order. -/
def parseTable (tbl : XNode) : Str :=
  ("<table border='1'>".data) ++
    ((iterTag ("tr".data) tbl).map
      (fun tr => ("<tr>".data) ++
        ((iterTag ("tc".data) tr).map cellHtml).flatten ++ ("</tr>".data))).flatten ++
    ("</table>".data)

/-- `_parse_paragraph`: a paragraph containing a table renders as that (first)
table only; otherwise its extracted text, or nothing when whitespace-only. -/
def parseParagraph (p : XNode) : Str :=
  match findDesc ("tbl".data) p with
  | some tbl => parseTable tbl
  | none =>
    let t := extractText p
    if strip t = [] then [] else ("<p>".data) ++ t ++ ("</p>".data)

/-- `_parse_section`: render every `p` element in the tree (document order,
including nested ones), dropping empty renderings, joined by newlines. -/
def parseSection (root : XNode) : Str :=
  joinSep [nlc] (((iterTag ("p".data) root).map parseParagraph).filter (fun h => h ≠ []))

/-! ### Concrete elements used by several claims -/

/-- A text run holding `A` (an `hp:t` element). -/
def xTA : XNode := .mk ("t".data) [] ("A".data) []

/-- A text run holding `B`. -/
def xTB : XNode := .mk ("t".data) [] ("B".data) []

/-- An explicit line-break element (`hp:lineBreak`). -/
def xLB : XNode := .mk ("lineBreak".data) [] [] []

/-- A paragraph whose children are, in order, run `A`, a line break, run `B`. -/
def xParaALB : XNode := .mk ("p".data) [] [] [xTA, xLB, xTB]

/-- A table cell (no `cellSpan` child) holding the paragraph above. -/
def xCellALB : XNode := .mk ("tc".data) [] [] [xParaALB]

/-- A table cell declared with `colSpan="2"`, `rowSpan="1"`. -/
def xCell21 : XNode := .mk ("tc".data) [] []
  [.mk ("cellSpan".data) [(("colSpan".data), ("2".data)), (("rowSpan".data), ("1".data))] [] [],
   xParaALB]

/-- A table cell whose `cellSpan` carries the non-numeric `colSpan="abc"`
and no `rowSpan`. -/
def xCellAbc : XNode := .mk ("tc".data) [] []
  [.mk ("cellSpan".data) [(("colSpan".data), ("abc".data))] [] [],
   .mk ("p".data) [] [] [xTA]]

/-- C5 counterexample: the claim says a cell's emitted td content contains no
newline (line breaks flattened to spaces); but the cell holding runs `A`, a
line break and `B` is emitted as `AB` followed by a newline — the newline
character is present and no space was substituted. -/
theorem c5_cell_newline_counterexample :
    cellHtml xCellALB = ("<td colspan='1' rowspan='1'>AB\n</td>".data) ∧
    nlc ∈ extractText xCellALB := by
  constructor
  · rfl
  · decide

/-- C5 amended: cell text extraction is identical to paragraph text
extraction, so line-break elements yield newline characters (appended after
the run text, per the C6 behaviour) — a cell containing at least one
line-break element has a newline character in its extracted text and hence in
its emitted td fragment; the content is not a single line. -/
theorem c5_cell_with_linebreak_has_newline (tc : XNode)
    (h : 0 < (iterTag ("lineBreak".data) tc).length) :
    nlc ∈ extractText tc ∧ nlc ∈ cellHtml tc := by
  have hmem : nlc ∈ extractText tc := by
    unfold extractText
    rw [List.mem_flatten]
    obtain ⟨a, ha⟩ := List.exists_mem_of_length_pos h
    exact ⟨[nlc], by
      rw [List.mem_append]
      exact Or.inr (List.mem_map_of_mem (fun _ => [nlc]) ha), by simp⟩
  refine ⟨hmem, ?_⟩
  unfold cellHtml
  simp only [List.append_assoc, List.mem_append]
  tauto

/-- C5 witness: the amended statement at the concrete cell. -/
theorem c5_witness :
    0 < (iterTag ("lineBreak".data) xCellALB).length ∧
    nlc ∈ extractText xCellALB ∧ nlc ∈ cellHtml xCellALB :=
  ⟨by decide, c5_cell_with_linebreak_has_newline xCellALB (by decide)⟩

/-- C6: evaluating text extraction on the paragraph with children run `A`,
line break, run `B`: the code produces `AB` followed by a newline (newlines
are appended after all run text, one per line-break element), not `A`,
newline, `B` as the claim states. -/
theorem c6_linebreak_position_eval :
    extractText xParaALB = ("AB\n".data) ∧ extractText xParaALB ≠ ("A\nB".data) := by
  constructor
  · rfl
  · decide

/-- C7 counterexample: the claim says a span attribute's value is `1` whenever
the source attribute is non-numeric; but `colSpan="abc"` is emitted verbatim. -/
theorem c7_nonnumeric_span_counterexample :
    cellHtml xCellAbc = ("<td colspan='abc' rowspan='1'>A</td>".data) ∧
    spanVal xCellAbc ("colSpan".data) ≠ ("1".data) := by
  constructor
  · rfl
  · decide

/-- C7 amended: every emitted td fragment carries explicit `colspan` and
`rowspan` attributes; both default to `1` when the `cellSpan` child (or the
individual attribute, via `attrGet`) is absent; a present attribute value is
emitted verbatim with no numeric validation; and a cell declared with
`colSpan="2"`, `rowSpan="1"` is emitted with exactly those two values. -/
theorem c7_span_attributes_explicit :
    (∀ tc : XNode, findChild ("cellSpan".data) tc = none →
      cellHtml tc = ("<td colspan='1' rowspan='1'>".data) ++ extractText tc ++ ("</td>".data)) ∧
    (∀ tc cs : XNode, findChild ("cellSpan".data) tc = some cs →
      cellHtml tc = ("<td colspan='".data) ++ attrGet cs ("colSpan".data) ("1".data) ++
        ("' rowspan='".data) ++ attrGet cs ("rowSpan".data) ("1".data) ++
        ("'>".data) ++ extractText tc ++ ("</td>".data)) ∧
    cellHtml xCell21 = ("<td colspan='2' rowspan='1'>AB\n</td>".data) := by
  refine ⟨?_, ?_, rfl⟩
  · intro tc h
    unfold cellHtml spanVal
    rw [h]
    simp
  · intro tc cs h
    unfold cellHtml spanVal
    rw [h]

/-- C7 witness: the amended statement applied at concrete cells. -/
theorem c7_witness :
    cellHtml (XNode.mk ("tc".data) [] [] [xParaALB]) =
      ("<td colspan='1' rowspan='1'>".data) ++
        extractText (XNode.mk ("tc".data) [] [] [xParaALB]) ++ ("</td>".data) ∧
    cellHtml xCell21 = ("<td colspan='2' rowspan='1'>AB\n</td>".data) :=
  ⟨c7_span_attributes_explicit.1 (XNode.mk ("tc".data) [] [] [xParaALB]) rfl,
   c7_span_attributes_explicit.2.2⟩

/-- A text run with symbolic text `w`. -/
def c10TNode (w : Str) : XNode := .mk ("t".data) [] w []
/-- The single paragraph inside the C10 family cell. -/
def c10PInner (w : Str) : XNode := .mk ("p".data) [] [] [c10TNode w]
/-- The C10 family cell. -/
def c10Cell (w : Str) : XNode := .mk ("tc".data) [] [] [c10PInner w]
/-- The C10 family table with one row and one cell. -/
def c10Tbl (w : Str) : XNode := .mk ("tbl".data) [] [] [.mk ("tr".data) [] [] [c10Cell w]]
/-- The paragraph wrapping the C10 family table through a run. -/
def c10POuter (w : Str) : XNode := .mk ("p".data) [] [] [.mk ("run".data) [] [] [c10Tbl w]]
/-- The C10 family section. -/
def c10Sec (w : Str) : XNode := .mk ("sec".data) [] [] [c10POuter w]

/-- C10 corrected: in a section whose table is reached through an enclosing
paragraph and whose cell content lies in a single nested paragraph (one text
run `w`), the section renderer emits the cell text twice — once inside the td
wrapper and once again, after the table, as a standalone p block — because
`_parse_section` iterates every `p` element of the tree including those nested
in table cells. -/
theorem c10_cell_text_duplicated (w : Str) (hsw : strip w ≠ []) :
    parseSection (c10Sec w) =
      ("<table border='1'><tr><td colspan='1' rowspan='1'>".data) ++ w ++
      ("</td></tr></table>\n<p>".data) ++ w ++ ("</p>".data) := by
  have hw : w ≠ [] := by
    intro h
    subst h
    exact hsw rfl
  have hiter : iterTag ("p".data) (c10Sec w) = [c10POuter w, c10PInner w] := rfl
  have hext : extractText (c10PInner w) = w := by
    unfold extractText
    have : iterTag ("t".data) (c10PInner w) = [c10TNode w] := rfl
    rw [this]
    have hlb : iterTag ("lineBreak".data) (c10PInner w) = [] := rfl
    rw [hlb]
    simp [c10TNode, XNode.text, hw]
  have hextc : extractText (c10Cell w) = w := by
    unfold extractText
    have : iterTag ("t".data) (c10Cell w) = [c10TNode w] := rfl
    rw [this]
    have hlb : iterTag ("lineBreak".data) (c10Cell w) = [] := rfl
    rw [hlb]
    simp [c10TNode, XNode.text, hw]
  have hpin : parseParagraph (c10PInner w) = ("<p>".data) ++ w ++ ("</p>".data) := by
    unfold parseParagraph
    have : findDesc ("tbl".data) (c10PInner w) = none := rfl
    rw [this]
    simp [hext, hsw]
  have hcell : cellHtml (c10Cell w) =
      ("<td colspan='1' rowspan='1'>".data) ++ w ++ ("</td>".data) := by
    unfold cellHtml
    have : spanVal (c10Cell w) ("colSpan".data) = ("1".data) := rfl
    rw [this]
    have : spanVal (c10Cell w) ("rowSpan".data) = ("1".data) := rfl
    rw [this]
    rw [hextc]
    simp
  have hpt : parseParagraph (c10POuter w) = parseTable (c10Tbl w) := by
    unfold parseParagraph
    have : findDesc ("tbl".data) (c10POuter w) = some (c10Tbl w) := rfl
    rw [this]
  have htbl : parseTable (c10Tbl w) =
      ("<table border='1'><tr>".data) ++
        (("<td colspan='1' rowspan='1'>".data) ++ w ++ ("</td>".data)) ++
        ("</tr></table>".data) := by
    unfold parseTable
    have : iterTag ("tr".data) (c10Tbl w) = [.mk ("tr".data) [] [] [c10Cell w]] := rfl
    rw [this]
    have : iterTag ("tc".data) (XNode.mk ("tr".data) [] [] [c10Cell w]) = [c10Cell w] := rfl
    simp only [List.map_cons, List.map_nil, this, hcell]
    simp
  have hne1 : parseParagraph (c10POuter w) ≠ [] := by
    rw [hpt, htbl]
    simp
  have hne2 : parseParagraph (c10PInner w) ≠ [] := by
    rw [hpin]
    simp
  unfold parseSection
  rw [hiter]
  simp only [List.map_cons, List.map_nil, List.filter]
  rw [hpt, htbl, hpin]
  simp [joinSep, nlc]

/-- C10 witness: the duplication at the concrete cell text `AB`. -/
theorem c10_witness :
    strip ("AB".data) ≠ [] ∧
    parseSection (c10Sec ("AB".data)) =
      ("<table border='1'><tr><td colspan='1' rowspan='1'>".data) ++ ("AB".data) ++
      ("</td></tr></table>\n<p>".data) ++ ("AB".data) ++ ("</p>".data) :=
  ⟨by decide, c10_cell_text_duplicated ("AB".data) (by decide)⟩

/-- A cell holding two paragraphs (`A` and `B`), with no nested table. -/
def c10CellTwo : XNode := .mk ("tc".data) [] []
  [.mk ("p".data) [] [] [xTA], .mk ("p".data) [] [] [xTB]]

/-- The section containing the two-paragraph cell, table wrapped in a paragraph. -/
def c10SecTwo : XNode := .mk ("sec".data) [] []
  [.mk ("p".data) [] [] [.mk ("run".data) [] []
    [.mk ("tbl".data) [] [] [.mk ("tr".data) [] [] [c10CellTwo]]]]]

/-- C10 counterexample: for a cell holding two nested paragraphs `A` and `B`
(text `AB`, non-empty after stripping, no nested table), the cell's text does
appear in its td wrapper, but it never appears as a standalone p block — the
nested iteration emits two separate blocks `<p>A</p>` and `<p>B</p>` instead,
so the claim's "appears once again as a standalone p block" fails. -/
theorem c10_two_paragraph_counterexample :
    containsSub (">AB</td>".data) (parseSection c10SecTwo) = true ∧
    containsSub ("<p>AB</p>".data) (parseSection c10SecTwo) = false ∧
    containsSub ("<p>A</p>".data) (parseSection c10SecTwo) = true ∧
    containsSub ("<p>B</p>".data) (parseSection c10SecTwo) = true := by
  refine ⟨?_, ?_, ?_, ?_⟩ <;> decide

/-! ### `is_hwpx_file` and `hwpx_to_html` (archive level)

An archive is modelled as `Option (List (Str × Str))`: `none` when the file
cannot be opened as a zip (corrupt, not a zip, unreadable — every such failure
is caught by the source's blanket `except` and yields `False`), otherwise the
list of (entry name, entry content).  Entry names are assumed distinct, as
`ZipFile.read` resolves an entry by name. -/

/-- `is_hwpx_file` (hwpx_parser.py lines 32-50): if a `mimetype` entry exists,
classify by whether its stripped, lowercased content contains `hwp`;
otherwise classify by the presence of `Contents/section0.xml`; any failure to
open the archive yields `false` (the function is total: it never raises). -/
def is_hwpx_file : Option (List (Str × Str)) → Bool
  | none => false
  | some es =>
    if (es.map Prod.fst).contains ("mimetype".data) then
      containsSub ("hwp".data)
        (List.map Char.toLower (strip ((es.lookup ("mimetype".data)).getD [])))
    else (es.map Prod.fst).contains ("Contents/section0.xml".data)

/-- Modelled from the spec: the claimed classification rule of C8/§4.1 read
as an if / else-if chain — "if a manifest (mimetype) entry exists and declares
a MIME type containing the format-specific substring, classify as FormatB;
else if the well-known content-part path Contents/section0.xml exists in the
archive listing, classify as FormatB; else not FormatB". -/
def claimedHwpxRule : Option (List (Str × Str)) → Bool
  | none => false
  | some es =>
    if (es.map Prod.fst).contains ("mimetype".data) &&
        containsSub ("hwp".data)
          (List.map Char.toLower (strip ((es.lookup ("mimetype".data)).getD []))) then
      true
    else if (es.map Prod.fst).contains ("Contents/section0.xml".data) then true
    else false

/-- An archive with a non-hwp `mimetype` entry and a `Contents/section0.xml`. -/
def c8Archive : Option (List (Str × Str)) :=
  some [(("mimetype".data), ("text/plain".data)),
        (("Contents/section0.xml".data), ("section".data))]

/-- C8 counterexample: on an archive whose `mimetype` entry does not contain
`hwp` but which does contain `Contents/section0.xml`, the claimed else-if rule
classifies as FormatB while the code returns `false` — the code never falls
through to the section0 check once a `mimetype` entry exists. -/
theorem c8_mimetype_counterexample :
    is_hwpx_file c8Archive = false ∧ claimedHwpxRule c8Archive = true := by
  constructor <;> decide

/-- C8 amended: the classifier is total (an unopenable archive yields `false`,
never an exception); when a `mimetype` entry exists the decision is solely
whether its stripped lowercased content contains `hwp` (the section0 fallback
is not consulted); only when no `mimetype` entry exists does the presence of
`Contents/section0.xml` decide. -/
theorem c8_classifier_characterization :
    is_hwpx_file none = false ∧
    (∀ es : List (Str × Str), (es.map Prod.fst).contains ("mimetype".data) = true →
      is_hwpx_file (some es) = containsSub ("hwp".data)
        (List.map Char.toLower (strip ((es.lookup ("mimetype".data)).getD [])))) ∧
    (∀ es : List (Str × Str), (es.map Prod.fst).contains ("mimetype".data) = false →
      is_hwpx_file (some es) =
        (es.map Prod.fst).contains ("Contents/section0.xml".data)) := by
  refine ⟨rfl, ?_, ?_⟩
  · intro es h
    simp only [is_hwpx_file]
    rw [if_pos h]
  · intro es h
    simp only [is_hwpx_file]
    rw [if_neg (by rw [h]; simp)]

/-- C8 witness: the characterization applied at concrete archives. -/
theorem c8_witness :
    is_hwpx_file c8Archive =
      containsSub ("hwp".data)
        (List.map Char.toLower
          (strip (((c8Archive.getD []).lookup ("mimetype".data)).getD []))) ∧
    is_hwpx_file (some [(("Contents/section0.xml".data), ("section".data))]) =
      ([("Contents/section0.xml".data)].map
        (fun n => n)).contains ("Contents/section0.xml".data) :=
  ⟨c8_classifier_characterization.2.1 (c8Archive.getD []) (by decide),
   by
    have := c8_classifier_characterization.2.2
      [(("Contents/section0.xml".data), ("section".data))] (by decide)
    simpa using this⟩

/-- `re.match(r"Contents/section\d+\.xml", name)`: anchored at the start only,
one or more digits, then `.xml`, then anything. -/
def matchSectionName (n : Str) : Bool :=
  startsWith ("Contents/section".data) n &&
    (let r := n.drop ("Contents/section".data).length
     let ds := r.takeWhile Char.isDigit
     (!ds.isEmpty) && startsWith (".xml".data) (r.drop ds.length))

/-- Python string `<`: lexicographic by code point; a proper prefix sorts
first. -/
def lexLt : Str → Str → Bool
  | [], [] => false
  | [], _ :: _ => true
  | _ :: _, [] => false
  | a :: as, b :: bs => if a = b then lexLt as bs else decide (a < b)

/-- Insertion into a sorted list under `lexLt` (stable, as Python `sorted`). -/
def insertSorted (a : Str) : List Str → List Str
  | [] => [a]
  | x :: xs => if lexLt a x then a :: x :: xs else x :: insertSorted a xs

/-- Python `sorted` on strings: plain lexicographic string order. -/
def pySorted (l : List Str) : List Str := l.foldr insertSorted []

/-- `hwpx_to_html` (hwpx_parser.py lines 160-200), at the section level: the
archive's entries are given with their section XML already parsed to trees
(`ET.fromstring` is the external XML library; the existence and format checks
of lines 149-154 precede this stage, and the binary-asset extraction writes to
the scratch directory without affecting the returned HTML).  Entry names
matching the section pattern are sorted with Python `sorted` and each parsed
section is appended between the fixed header and footer lines, joined by
newlines. -/
def hwpx_to_html (entries : List (Str × XNode)) : Except Str Str :=
  let names := entries.map Prod.fst
  let secs := pySorted (names.filter matchSectionName)
  if secs.isEmpty then .error ("no sections found".data)
  else .ok (joinSep [nlc]
    ([("<!DOCTYPE html>".data), ("<html>".data),
      ("<head><meta charset='utf-8'><title>HWPX Document</title></head>".data),
      ("<body>".data)] ++
     secs.map (fun n => parseSection ((entries.lookup n).getD (XNode.mk [] [] [] []))) ++
     [("</body>".data), ("</html>".data)]))

/-- The payload of a successful conversion (empty on error). -/
def okValue : Except Str Str → Str
  | .ok s => s
  | .error _ => []

/-- A section tree holding one paragraph with the given text. -/
def oneParaSec (w : Str) : XNode :=
  .mk ("sec".data) [] [] [.mk ("p".data) [] [] [.mk ("t".data) [] w []]]

/-- An archive holding `Contents/section2.xml` and `Contents/section10.xml`. -/
def c1Archive : List (Str × XNode) :=
  [(("Contents/section2.xml".data), oneParaSec ("SECTION-TWO".data)),
   (("Contents/section10.xml".data), oneParaSec ("SECTION-TEN".data))]

/-- C1: evaluating the embedded `hwpx_to_html` on an archive with sections 2
and 10: the produced HTML places section10's content before section2's,
because `sorted` compares the entry names as strings and `...section10.xml`
sorts before `...section2.xml` — the numeric order the spec requires does not
hold. -/
theorem c1_section_order_eval :
    (hwpx_to_html c1Archive).isOk = true ∧
    containsSub ("<p>SECTION-TEN</p>\n<p>SECTION-TWO</p>".data)
      (okValue (hwpx_to_html c1Archive)) = true ∧
    containsSub ("SECTION-TWO".data) (okValue (hwpx_to_html c1Archive)) = true ∧
    pySorted ((c1Archive.map Prod.fst).filter matchSectionName) =
      [("Contents/section10.xml".data), ("Contents/section2.xml".data)] := by
  refine ⟨?_, ?_, ?_, ?_⟩ <;> decide

/-! ### Image asset extraction and the pyhwp conversion path

Filesystem and subprocess effects are modelled by explicit oracles: a
`copyOk`/`writeOk` function says whether copying or writing a named asset
succeeds (a failure raises `OSError` in Python), and an `EngineRun` record
gives the observable outcome of the `hwp5html` subprocess invocation. -/

/-- Whether `suf` is a suffix of `s` (Python `str.endswith`). -/
def endsWith (suf s : Str) : Bool := startsWith suf.reverse s.reverse

/-- `Path(name).name`: the part after the last slash. -/
def basename (n : Str) : Str :=
  (n.reverse.takeWhile (fun c => !(c == ('/')))).reverse

/-- A zip entry under `BinData/` that is not a directory entry. -/
def isBinDataEntry (n : Str) : Bool :=
  startsWith ("BinData/".data) n && !(endsWith (("/".data)) n)

/-- `extract_images` (converter.py lines 114-144): copy every file of the
scratch `bindata` directory into the images directory, recording
`bindata/<name> ↦ <base>/<name>`.  The source has no exception handler, so
the first failing copy raises out of the function (modelled `Except.error`),
discarding the mapping built so far.  `files` are the plain-file names of the
`bindata` directory in iteration order. -/
def extract_images (files : List Str) (copyOk : Str → Bool) (base : Str) :
    Except Unit (List (Str × Str)) :=
  go files []
where
  go : List Str → List (Str × Str) → Except Unit (List (Str × Str))
    | [], acc => .ok acc
    | f :: fs, acc =>
      if copyOk f then
        go fs (acc ++ [(("bindata/".data) ++ f, base ++ ("/".data) ++ f)])
      else .error ()

/-- `extract_images_from_hwpx` (hwpx_parser.py lines 209-241): write every
`BinData/` entry of the archive into the images directory, recording
`BinData/<basename> ↦ <base>/<basename>`; the whole loop runs inside
`try: ... except Exception: pass`, so the first failure stops the loop and the
mapping accumulated so far is returned — never an error.  The `Except` result
type records that no error channel is ever used. -/
def extract_images_from_hwpx (names : List Str) (writeOk : Str → Bool) (base : Str) :
    Except Unit (List (Str × Str)) :=
  .ok (go (names.filter isBinDataEntry) [])
where
  go : List Str → List (Str × Str) → List (Str × Str)
    | [], acc => acc
    | n :: ns, acc =>
      if writeOk n then
        go ns (acc ++ [(("BinData/".data) ++ basename n, base ++ ("/".data) ++ basename n)])
      else acc

/-- C3: evaluating the two extractors on a single asset whose copy fails: the
pyhwp-path `extract_images` propagates the failure (no handler in the source),
while the hwpx-path `extract_images_from_hwpx` swallows it and returns the
empty mapping; the latter can never return an error for any input. -/
theorem c3_extract_failure_eval :
    extract_images [("image1.png".data)] (fun _ => false) ("images".data) =
      .error () ∧
    extract_images_from_hwpx [("BinData/image1.png".data)] (fun _ => false)
      ("images".data) = .ok [] ∧
    (∀ (names : List Str) (writeOk : Str → Bool) (base : Str),
      ∃ m, extract_images_from_hwpx names writeOk base = .ok m) := by
  refine ⟨rfl, rfl, ?_⟩
  intro names writeOk base
  exact ⟨_, rfl⟩

/-- Errors of the conversion path: Python `FileNotFoundError` and
`HwpConversionError`. -/
inductive PyErr where
  | fileNotFound (msg : Str)
  | conv (msg : Str)
deriving DecidableEq

/-- The observable outcome of running the `hwp5html` engine: whether
`subprocess.run` itself raised `FileNotFoundError` (binary missing), the exit
status, captured output, and the files the engine wrote into the scratch
directory with their contents. -/
structure EngineRun where
  raisesFNF : Bool
  returncode : Int
  stderr : Str
  stdout : Str
  outFiles : List Str
  contentOf : Str → Str

/-- The `*.html` then `*.xhtml` glob fallback of converter.py lines 92-94. -/
def globHtml (files : List Str) : List Str :=
  files.filter (fun f => endsWith (".html".data) f) ++
    files.filter (fun f => endsWith (".xhtml".data) f)

/-- `hwp_to_html` (converter.py lines 54-111).  The second component of the
result records whether the scratch directory created by `tempfile.mkdtemp`
still exists when the call returns or its exception escapes: the only
`except` clause catches `FileNotFoundError` alone (removing the directory),
so the `HwpConversionError` raised on a non-zero exit status or on missing
HTML output escapes with the directory still on disk; on success the caller
owns the directory (it exists, by design). -/
def hwp_to_html (hwpExists : Bool) (eng : EngineRun) : Except PyErr Str × Bool :=
  if !hwpExists then
    (.error (.fileNotFound ("hwp file not found".data)), false)
  else if eng.raisesFNF then
    (.error (.conv ("hwp5html not installed".data)), false)
  else if eng.returncode ≠ 0 then
    (.error (.conv (("hwp5html failed: ".data) ++
      (if eng.stderr ≠ [] then eng.stderr else eng.stdout))), true)
  else
    match
      (if eng.outFiles.contains ("index.xhtml".data) then some ("index.xhtml".data)
       else (globHtml eng.outFiles).head?) with
    | some f => (.ok (eng.contentOf f), true)
    | none => (.error (.conv ("converted html not found".data)), true)

/-- `_convert_with_pyhwp` (converter.py lines 206-236): when `hwp_to_html`
raises, the exception propagates before the caller ever receives the scratch
path, so whatever `hwp_to_html` left on disk remains; on success the
`try/finally` removes the directory on every path through the markdown
rendering (the output-writing and image-extraction branches run inside the
`try`, so even their failures reach the `finally`). -/
def convert_with_pyhwp (hwpExists : Bool) (eng : EngineRun) : Except PyErr Str × Bool :=
  match hwp_to_html hwpExists eng with
  | (.error e, leaked) => (.error e, leaked)
  | (.ok html, _) => (.ok html, false)

/-- An engine run that exits with status 1 (conversion failure). -/
def c4Engine : EngineRun :=
  { raisesFNF := false, returncode := 1, stderr := ("err".data), stdout := [],
    outFiles := [], contentOf := fun _ => [] }

/-- An engine run that exits 0 but writes no HTML file. -/
def c4EngineNoHtml : EngineRun :=
  { raisesFNF := false, returncode := 0, stderr := [], stdout := [],
    outFiles := [("hwp5.css".data)], contentOf := fun _ => [] }

/-- C4: evaluating the pyhwp path on an existing file whose engine run fails
(non-zero exit, or zero exit with no HTML output): the conversion error
propagates and the scratch directory created by `hwp_to_html` remains on
disk (second component `true`), contradicting the claim that every scratch
directory is removed before the error reaches the caller. -/
theorem c4_scratch_dir_leak_eval :
    convert_with_pyhwp true c4Engine =
      (.error (.conv (("hwp5html failed: ".data) ++ ("err".data))), true) ∧
    convert_with_pyhwp true c4EngineNoHtml =
      (.error (.conv ("converted html not found".data)), true) ∧
    (hwp_to_html true c4Engine).2 = true := by
  refine ⟨rfl, rfl, rfl⟩

/-! ### The HTML document model and `html_to_markdown` (converter.py 147-203) -/

/-- A BeautifulSoup DOM node: a text node or an element with attributes. -/
inductive HNode where
  | text (s : Str)
  | elem (tag : Str) (attrs : List (Str × Str)) (children : List HNode)

/-- `tag.get(key, dflt)`: attribute lookup with a default. -/
def hAttr (attrs : List (Str × Str)) (key dflt : Str) : Str :=
  match attrs.find? (fun kv => kv.1 = key) with
  | some kv => kv.2
  | none => dflt

/-- The tags removed outright (`script`, `style`, `meta`, `link`). -/
def stripTags : List Str :=
  [("script".data), ("style".data), ("meta".data), ("link".data)]

mutual

/-- Step 1 of `html_to_markdown`: `tag.decompose()` removes the element and
its whole subtree for every tag in `stripTags`. -/
def removeBad : HNode → List HNode
  | .text s => [.text s]
  | .elem tag attrs cs =>
    if stripTags.contains tag then [] else [.elem tag attrs (removeBadList cs)]

def removeBadList : List HNode → List HNode
  | [] => []
  | n :: ns => removeBad n ++ removeBadList ns

end

/-- The placeholder token for the image with (zero-based) index `i`:
`IMGPLACEHOLDER{i}ENDIMG`. -/
def markerStr (i : Nat) : Str :=
  ("IMGPLACEHOLDER".data) ++ Nat.toDigits 10 i ++ ("ENDIMG".data)

mutual

/-- Step 2: walk the document in document order, indexing every `img`
element; an `img` with a `table` ancestor is replaced by its placeholder text
and its (marker, src, alt) triple is recorded. -/
def replImg (inTbl : Bool) (i : Nat) : HNode → HNode × Nat × List (Str × Str × Str)
  | .text s => (.text s, i, [])
  | .elem tag attrs cs =>
    if tag = ("img".data) then
      if inTbl then
        (.text (markerStr i), i + 1,
          [(markerStr i, hAttr attrs ("src".data) [], hAttr attrs ("alt".data) [])])
      else (.elem tag attrs cs, i + 1, [])
    else
      match replImgList (inTbl || (tag == ("table".data))) i cs with
      | (cs2, i2, ps) => (.elem tag attrs cs2, i2, ps)

def replImgList (inTbl : Bool) (i : Nat) :
    List HNode → List HNode × Nat × List (Str × Str × Str)
  | [] => ([], i, [])
  | n :: ns =>
    match replImg inTbl i n with
    | (n2, i2, ps) =>
      match replImgList inTbl i2 ns with
      | (ns2, i3, ps2) => (n2 :: ns2, i3, ps ++ ps2)

end

/-- Step 4: `html = html.replace(old, new)` applied pair by pair to the whole
serialized markup string. -/
def applyMapStr (m : List (Str × Str)) (s : Str) : Str :=
  m.foldl (fun acc kv => replaceAll kv.1 kv.2 acc) s

mutual

/-- Step 3: serialization of the manipulated tree back to markup text
(`html = str(soup)`): text verbatim, elements with double-quoted attributes
and a matching closing tag. -/
def serializeNode : HNode → Str
  | .text s => s
  | .elem tag attrs cs =>
    ("<".data) ++ tag ++
      (attrs.map (fun kv =>
        (" ".data) ++ kv.1 ++ ("=\"".data) ++ kv.2 ++ ("\"".data))).flatten ++
      (">".data) ++ serializeList cs ++ ("</".data) ++ tag ++ (">".data)

def serializeList : List HNode → Str
  | [] => []
  | n :: ns => serializeNode n ++ serializeList ns

end

/-- A character ending a tag name. -/
def isTagEnd (c : Char) : Bool := (c == ('>')) || (c == (' ')) || (c == ('/'))

/-- Modelled from the spec: the markup reader of the external renderer
(markdownify re-parses the markup string before converting, spec 4.5 steps 1
and 5).  Reads an attribute list up to and past the closing `>`; fuel-bounded
for totality. -/
def parseAttrsGo : Nat → Str → List (Str × Str) × Str
  | 0, s => ([], s)
  | _ + 1, [] => ([], [])
  | f + 1, c :: r =>
    if c = ('>') then ([], r)
    else if c = (' ') then parseAttrsGo f r
    else
      let key := (c :: r).takeWhile (fun x => !(x == ('=')))
      let r1 := ((c :: r).drop (key.length + 1)).drop 1
      let v := r1.takeWhile (fun x => !(x == ('"')))
      let r2 := r1.drop (v.length + 1)
      match parseAttrsGo f r2 with
      | (ats, rest) => ((key, v) :: ats, rest)

/-- Modelled from the spec: the markup reader of the external renderer —
elements with double-quoted attributes and text nodes, a child list ending at
its parent's closing tag; fuel-bounded for totality. -/
def parseNodesGo : Nat → Str → List HNode × Str
  | 0, s => ([], s)
  | _ + 1, [] => ([], [])
  | f + 1, c :: r =>
    if c = ('<') then
      if r.head? = some ('/') then ([], c :: r)
      else
        let tag := r.takeWhile (fun x => !(isTagEnd x))
        match parseAttrsGo f (r.drop tag.length) with
        | (ats, r2) =>
          match parseNodesGo f r2 with
          | (cs, r3) =>
            match parseNodesGo f (r3.drop (tag.length + 3)) with
            | (sib, r5) => (.elem tag ats cs :: sib, r5)
    else
      let txt := (c :: r).takeWhile (fun x => !(x == ('<')))
      match parseNodesGo f ((c :: r).drop txt.length) with
      | (sib, r2) => (.text txt :: sib, r2)

/-- Parse a markup string into a node list. -/
def parseHtml (s : Str) : List HNode := (parseNodesGo s.length s).1

mutual

/-- Modelled from the spec: the external markdownify renderer (§4.5 step 5).
Text content is rendered verbatim; an `img` outside tables becomes Markdown
image syntax while an `img` inside a table is dropped (the documented
limitation that motivates the placeholder workaround); tables render row by
row with pipe separators; paragraphs end with a blank line; every other
element renders as its children. -/
def mdNode (inTbl : Bool) : HNode → Str
  | .text s => s
  | .elem tag attrs cs =>
    if tag = ("img".data) then
      if inTbl then []
      else ("![".data) ++ hAttr attrs ("alt".data) [] ++ ("](".data) ++
        hAttr attrs ("src".data) [] ++ (")".data)
    else if tag = ("table".data) then mdList true cs ++ ("\n\n".data)
    else if tag = ("tr".data) then ("| ".data) ++ mdList inTbl cs ++ ("|".data)
    else if tag = ("td".data) ∨ tag = ("th".data) then mdList inTbl cs ++ (" ".data)
    else if tag = ("p".data) then mdList inTbl cs ++ ("\n\n".data)
    else mdList inTbl cs

def mdList (inTbl : Bool) : List HNode → Str
  | [] => []
  | n :: ns => mdNode inTbl n ++ mdList inTbl ns

end

/-- Step 6's source resolution: map the recorded (original) source through the
image mapping when present, else leave it unchanged. -/
def resolveSrc (m : List (Str × Str)) (src : Str) : Str :=
  match m.lookup src with
  | some p => p
  | none => src

/-- Markdown image syntax. -/
def mdImage (alt src : Str) : Str :=
  ("![".data) ++ alt ++ ("](".data) ++ src ++ (")".data)

/-- Step 6: replace every recorded placeholder token by Markdown image syntax
with the resolved source. -/
def restoreMarkers (m : List (Str × Str)) (phs : List (Str × Str × Str))
    (s : Str) : Str :=
  phs.foldl (fun acc ph => replaceAll ph.1 (mdImage ph.2.2 (resolveSrc m ph.2.1)) acc) s

/-- `html_to_markdown` (converter.py lines 147-203): remove non-content tags,
replace table-nested images by placeholder tokens, serialize the tree back to
markup text, perform the image-path mapping's literal substring replacements
on that whole string, re-parse and render to Markdown, restore the
placeholders as image syntax, and normalize whitespace. -/
def html_to_markdown (doc : HNode) (m : List (Str × Str)) : Str :=
  match replImgList false 0 (removeBad doc) with
  | (d2, _, phs) =>
    normalizeWs (restoreMarkers m phs
      (mdList false (parseHtml (applyMapStr m (serializeList d2)))))

def c2Img (s a : Str) : HNode :=
  .elem ("img".data) [(("src".data), s), (("alt".data), a)] []

def c2Doc (s a : Str) : HNode :=
  .elem ("body".data) []
    [.elem ("table".data) [] [.elem ("tr".data) [] [.elem ("td".data) [] [c2Img s a]]]]

def c2Marked (x : Str) : HNode :=
  .elem ("body".data) []
    [.elem ("table".data) [] [.elem ("tr".data) [] [.elem ("td".data) [] [.text x]]]]

theorem c2_restore (R : Str) :
    replaceAll (markerStr 0) R (("| ".data) ++ markerStr 0 ++ (" |\n\n".data)) =
      ("| ".data) ++ R ++ (" |\n\n".data) := by
  have hsplit : ("| ".data) ++ markerStr 0 ++ (" |\n\n".data) =
      ('|') :: (' ') :: (markerStr 0 ++ (" |\n\n".data)) := by
    decide
  rw [hsplit,
    replaceAll_cons_no_match _ _ _ _ (by decide),
    replaceAll_cons_no_match _ _ _ _ (by decide),
    replaceAll_match _ _ _ (by decide),
    replaceAll_no_occurrence _ _ _ (by decide)]
  rfl

theorem strip_append_two_nl {M : Str} {c d : Char}
    (hh : M.head? = some c) (hc : isWsChar c = false)
    (hl : M.getLast? = some d) (hd : isWsChar d = false) :
    strip (M ++ [nlc, nlc]) = M := by
  unfold strip
  rw [List.reverse_append]
  have h2 : ([nlc, nlc] : Str).reverse = [nlc, nlc] := rfl
  rw [h2]
  have h3 : List.dropWhile isWsChar ([nlc, nlc] ++ M.reverse) =
      List.dropWhile isWsChar M.reverse := by
    simp [List.dropWhile_cons, isWsChar, nlc]
  rw [h3]
  have h4 : List.dropWhile isWsChar M.reverse = M.reverse :=
    dropWhile_head_false isWsChar _ (by rw [List.head?_reverse]; exact hl) hd
  rw [h4, List.reverse_reverse]
  exact dropWhile_head_false isWsChar _ hh hc

theorem crossing_left_mem {pat x a2 b2 : Str}
    (hp : pat = a2 ++ b2) (hne : a2 ≠ []) (hx : ∃ u, x = u ++ a2) :
    ∃ c, c ∈ pat ∧ c ∈ x := by
  cases a2 with
  | nil => exact absurd rfl hne
  | cons c t =>
    refine ⟨c, ?_, ?_⟩
    · rw [hp]; simp
    · rcases hx with ⟨u, rfl⟩; simp

theorem crossing_right_head {pat y a2 b2 : Str}
    (hp : pat = a2 ++ b2) (hne : b2 ≠ []) (hy : ∃ v, y = b2 ++ v) :
    ∃ c, c ∈ pat ∧ y.head? = some c := by
  cases b2 with
  | nil => exact absurd rfl hne
  | cons c t =>
    refine ⟨c, ?_, ?_⟩
    · rw [hp]; simp
    · rcases hy with ⟨v, rfl⟩; simp

theorem nl_mem_of_subOf_threeNl {x : Str} (h : SubOf threeNl x) : nlc ∈ x :=
  subOf_subset h nlc (by simp [threeNl])

theorem subOf_five_split {pat A B C a p : Str}
    (hA : ¬ SubOf pat A) (hB : ¬ SubOf pat B) (hC : ¬ SubOf pat C)
    (hAx : ∀ c, c ∈ pat → c ∉ A)
    (hBx : ∀ c, c ∈ pat → c ∉ B)
    (hBh : ∀ c, c ∈ pat → (B ++ (p ++ C)).head? ≠ some c)
    (hCh : ∀ c, c ∈ pat → C.head? ≠ some c)
    (h : SubOf pat (A ++ (a ++ (B ++ (p ++ C))))) :
    SubOf pat a ∨ SubOf pat p := by
  rcases subOf_append_split h with h1 | h1 | ⟨a2, b2, hp2, hne1, hne2, hxa, hyb⟩
  · exact absurd h1 hA
  · rcases subOf_append_split h1 with h2 | h2 | ⟨a2, b2, hp2, hne1, hne2, hxa, hyb⟩
    · exact Or.inl h2
    · rcases subOf_append_split h2 with h3 | h3 | ⟨a2, b2, hp2, hne1, hne2, hxa, hyb⟩
      · exact absurd h3 hB
      · rcases subOf_append_split h3 with h4 | h4 | ⟨a2, b2, hp2, hne1, hne2, hxa, hyb⟩
        · exact Or.inr h4
        · exact absurd h4 hC
        · obtain ⟨c, hc1, hc2⟩ := crossing_right_head hp2 hne2 hyb
          exact absurd hc2 (hCh c hc1)
      · obtain ⟨c, hc1, hc2⟩ := crossing_left_mem hp2 hne1 hxa
        exact absurd hc2 (hBx c hc1)
    · obtain ⟨c, hc1, hc2⟩ := crossing_right_head hp2 hne2 hyb
      exact absurd hc2 (hBh c hc1)
  · obtain ⟨c, hc1, hc2⟩ := crossing_left_mem hp2 hne1 hxa
    exact absurd hc2 (hAx c hc1)

theorem c2_pre_noTriple {a p : Str} (ha : nlc ∉ a) (hp : nlc ∉ p) :
    containsSub threeNl
      (("| ![".data) ++ (a ++ (("](".data) ++ (p ++ (") |\n\n".data))))) = false := by
  rw [containsSub_eq_false_iff]
  intro h
  have hBh : ∀ c, c ∈ threeNl → (("](".data) ++ (p ++ (") |\n\n".data))).head? ≠ some c := by
    intro c hc heq
    have hhd : (("](".data) ++ (p ++ (") |\n\n".data))).head? = some (']') := rfl
    rw [hhd] at heq
    have : (']') = c := by simpa using heq
    subst this
    simp [threeNl, nlc] at hc
  rcases subOf_five_split
      (containsSub_eq_false_iff _ _ |>.mp (by decide))
      (containsSub_eq_false_iff _ _ |>.mp (by decide))
      (containsSub_eq_false_iff _ _ |>.mp (by decide))
      (by decide) (by decide) hBh (by decide) h with h1 | h1
  · exact ha (nl_mem_of_subOf_threeNl h1)
  · exact hp (nl_mem_of_subOf_threeNl h1)

theorem c2_final_noPH {a p : Str}
    (ha : ¬ SubOf ("IMGPLACEHOLDER".data) a)
    (hp : ¬ SubOf ("IMGPLACEHOLDER".data) p) :
    containsSub ("IMGPLACEHOLDER".data)
      (("| ![".data) ++ (a ++ (("](".data) ++ (p ++ (") |".data))))) = false := by
  rw [containsSub_eq_false_iff]
  intro h
  have hBh : ∀ c, c ∈ ("IMGPLACEHOLDER".data) →
      (("](".data) ++ (p ++ (") |".data))).head? ≠ some c := by
    intro c hc heq
    have hhd : (("](".data) ++ (p ++ (") |".data))).head? = some (']') := rfl
    rw [hhd] at heq
    have : (']') = c := by simpa using heq
    subst this
    simp at hc
  rcases subOf_five_split
      (containsSub_eq_false_iff _ _ |>.mp (by decide))
      (containsSub_eq_false_iff _ _ |>.mp (by decide))
      (containsSub_eq_false_iff _ _ |>.mp (by decide))
      (by decide) (by decide) hBh (by decide) h with h1 | h1
  · exact ha h1
  · exact hp h1

/-- Symbolic evaluation of the whole pipeline on the single-table-image
document: provided the mapping resolves the source to `p`, the mapping's
substring replacements leave the serialized marked-up document unchanged, and
`a`/`p` are newline-free, the output is exactly one Markdown table row
holding the restored image syntax. -/
theorem c2_pipeline_eval (s a p : Str) (m : List (Str × Str))
    (h1 : m.lookup s = some p)
    (h2 : applyMapStr m (serializeList [c2Marked (markerStr 0)]) =
      serializeList [c2Marked (markerStr 0)])
    (h5 : nlc ∉ a) (h6 : nlc ∉ p) :
    html_to_markdown (c2Doc s a) m =
      ("| ![".data) ++ (a ++ (("](".data) ++ (p ++ (") |".data)))) := by
  have h0 : replImgList false 0 (removeBad (c2Doc s a)) =
      ([c2Marked (markerStr 0)], 1, [(markerStr 0, s, a)]) := rfl
  have hres : resolveSrc m s = p := by
    unfold resolveSrc
    rw [h1]
  have hrest : restoreMarkers m [(markerStr 0, s, a)]
      (("| ".data) ++ markerStr 0 ++ (" |\n\n".data)) =
      ("| ".data) ++ mdImage a p ++ (" |\n\n".data) := by
    show replaceAll (markerStr 0) (mdImage a (resolveSrc m s))
        (("| ".data) ++ markerStr 0 ++ (" |\n\n".data)) = _
    rw [hres, c2_restore]
  have hmd : mdList false (parseHtml (serializeList [c2Marked (markerStr 0)])) =
      ("| ".data) ++ markerStr 0 ++ (" |\n\n".data) := by decide
  unfold html_to_markdown
  rw [h0]
  show normalizeWs (restoreMarkers m [(markerStr 0, s, a)]
    (mdList false (parseHtml (applyMapStr m (serializeList [c2Marked (markerStr 0)]))))) = _
  rw [h2, hmd, hrest]
  unfold normalizeWs
  have hshape : ("| ".data) ++ mdImage a p ++ (" |\n\n".data) =
      ("| ![".data) ++ (a ++ (("](".data) ++ (p ++ (") |\n\n".data)))) := by
    simp [mdImage, List.append_assoc]
  rw [hshape]
  rw [collapse_of_noTriple (c2_pre_noTriple h5 h6)]
  have hshape2 : ("| ![".data) ++ (a ++ (("](".data) ++ (p ++ (") |\n\n".data)))) =
      (("| ![".data) ++ (a ++ (("](".data) ++ (p ++ (") |".data))))) ++ [nlc, nlc] := by
    simp [List.append_assoc, nlc]
  rw [hshape2]
  apply strip_append_two_nl (c := ('|')) (d := ('|'))
  · rfl
  · decide
  · simp only [List.getLast?_append]
    have : ((") |".data) : Str).getLast? = some ('|') := by decide
    rw [this]
    rfl
  · decide

/-- C2 amended: for the document with an `img` (src `s`, alt `a`) inside a
table and a path mapping resolving `s` to `p`, the final Markdown contains the
literal image syntax `![a](p)` and no placeholder-prefix token — provided the
mapping's literal substring replacements leave the serialized marked-up
document unchanged (no key occurs anywhere in the serialized markup, markup-
straddling occurrences included), and `a` and `p` contain no placeholder
prefix and no newline.  Without those provisos the claim fails (see the
counterexample). -/
theorem c2_table_image_survives (s a p : Str) (m : List (Str × Str))
    (h1 : m.lookup s = some p)
    (h2 : applyMapStr m (serializeList [c2Marked (markerStr 0)]) =
      serializeList [c2Marked (markerStr 0)])
    (h3 : ¬ SubOf ("IMGPLACEHOLDER".data) a)
    (h4 : ¬ SubOf ("IMGPLACEHOLDER".data) p)
    (h5 : nlc ∉ a) (h6 : nlc ∉ p) :
    containsSub (mdImage a p) (html_to_markdown (c2Doc s a) m) = true ∧
    containsSub ("IMGPLACEHOLDER".data) (html_to_markdown (c2Doc s a) m) = false := by
  rw [c2_pipeline_eval s a p m h1 h2 h5 h6]
  constructor
  · rw [containsSub_iff]
    exact ⟨("| ".data), (" |".data), by simp [mdImage, List.append_assoc]⟩
  · exact c2_final_noPH h3 h4

/-- C2 witness: the amended statement at a concrete source, alt text, path
and single-pair mapping. -/
theorem c2_witness :
    containsSub (mdImage ("pic".data) ("images/a.png".data))
      (html_to_markdown (c2Doc ("BinData/a.png".data) ("pic".data))
        [(("BinData/a.png".data), ("images/a.png".data))]) = true ∧
    containsSub ("IMGPLACEHOLDER".data)
      (html_to_markdown (c2Doc ("BinData/a.png".data) ("pic".data))
        [(("BinData/a.png".data), ("images/a.png".data))]) = false :=
  c2_table_image_survives ("BinData/a.png".data) ("pic".data) ("images/a.png".data)
    [(("BinData/a.png".data), ("images/a.png".data))]
    (by decide)
    (by
      show replaceAll ("BinData/a.png".data) ("images/a.png".data)
          (serializeList [c2Marked (markerStr 0)]) =
        serializeList [c2Marked (markerStr 0)]
      exact replaceAll_no_occurrence _ _ _ (by decide))
    ((containsSub_eq_false_iff _ _).mp (by decide))
    ((containsSub_eq_false_iff _ _).mp (by decide))
    (by decide) (by decide)

/-- The image mapping that sends the source to a placeholder-shaped path. -/
def c2BadMap : List (Str × Str) := [(("BinData/a.png".data), markerStr 0)]

/-- C2 counterexample: the claim quantifies over every path mapping that
resolves the source; for the mapping sending the source to the
placeholder-shaped path `IMGPLACEHOLDER0ENDIMG`, the final Markdown contains
a token of the exact form `IMGPLACEHOLDER<index>ENDIMG`, contradicting the
claim's "contains no placeholder token". -/
theorem c2_placeholder_counterexample :
    containsSub (markerStr 0)
      (html_to_markdown (c2Doc ("BinData/a.png".data) ("pic".data)) c2BadMap) = true ∧
    containsSub (mdImage ("pic".data) (markerStr 0))
      (html_to_markdown (c2Doc ("BinData/a.png".data) ("pic".data)) c2BadMap) = true := by
  have heval := c2_pipeline_eval ("BinData/a.png".data) ("pic".data) (markerStr 0) c2BadMap
    (by decide)
    (by
      show replaceAll ("BinData/a.png".data) (markerStr 0)
          (serializeList [c2Marked (markerStr 0)]) =
        serializeList [c2Marked (markerStr 0)]
      exact replaceAll_no_occurrence _ _ _ (by decide))
    (by decide) (by decide)
  rw [heval]
  constructor
  · rw [containsSub_iff]
    exact ⟨("| ![".data) ++ (("pic".data) ++ ("](".data)), (") |".data),
      by simp [List.append_assoc]⟩
  · rw [containsSub_iff]
    exact ⟨("| ".data), (" |".data), by simp [mdImage, List.append_assoc]⟩
